import Mathlib

/-!
Verification development for the `tabs-ai` browser extension.

Shallow embedding of the TypeScript sources:
  * `src/src/services/storageService.ts` — `StorageService` (a wrapper over the
    WebExtensions `chrome.storage` / `browser.storage` key-value store) and
    `TabGrouper` (native tab-group synchronisation).
  * `src/unnamed/part_001` — `aiService.ts`: `AIService` with `getApiKey`,
    `analyzeTabs`, `createFallbackGrouping`, `categorizeTab`, `extractDomain`,
    `validateAndFormatResponse`.

Host-provided APIs (the browser storage backend, `fetch`, `JSON.parse`,
`new URL(...)`) are modelled as explicit state or oracle parameters; the
functions of the repository itself are translated directly from the source.
JavaScript strings are modelled as Lean `String` (the sources only ever
compare and search ASCII text), JavaScript's loose values as the inductive
`JVal`, and parsed JSON documents as the inductive `Json`.
-/

namespace TabsAI

/-- A JavaScript value as it can live in the extension's settings store
(`chrome.storage` stores JSON-serialisable values; `undefined` is represented
by absence of the key). -/
inductive JVal where
  | jnull
  | jbool (b : Bool)
  | jnum (n : Int)
  | jstr (s : String)
  deriving DecidableEq, Repr

/-- JavaScript truthiness of a stored value (`if (v)`).  `null`, `false`,
`0` and `''` are falsy, everything else is truthy. -/
def JVal.truthy : JVal → Bool
  | .jnull => false
  | .jbool b => b
  | .jnum n => n != 0
  | .jstr s => s != ""

/-! ## The settings store

`chrome.storage.local` (resp. `.sync`) is a flat key-value store; we model it
as a partial map from keys to `JVal`.  The `StorageService` methods
(`storageService.ts` lines 74–146) wrap `storage.set`/`get`/`remove` in
promises; on the success path (no `chrome.runtime.lastError`) their semantics
over this map are the functions below. -/

def Store := String → Option JVal

/-- The empty store. -/
def Store.empty : Store := fun _ => none

/-- `StorageService.saveSetting(key, value)` on the success path:
`storage.set({ [key]: value })` merges the single-key object into the store. -/
def saveSetting (st : Store) (key : String) (value : JVal) : Store :=
  fun k => if k = key then some value else st k

/-- `StorageService.getSetting(key)` on the success path:
`storage.get(key)` yields `{ [key]: value }` when the key is present and `{}`
otherwise; the wrapper returns `result[key] !== undefined ? value : null`
(`storageService.ts` lines 96–124). -/
def getSetting (st : Store) (key : String) : JVal :=
  match st key with
  | some v => v
  | none => JVal.jnull

/-- `StorageService.removeSetting(key)` on the success path:
`storage.remove(key)` deletes the key. -/
def removeSetting (st : Store) (key : String) : Store :=
  fun k => if k = key then none else st k

/-! ## StorageService construction (claim C8)

`storageService.ts` lines 1–43.  The module-level compatibility layer picks
`chrome`, then `window.browser`, then `window.chrome` — the first whose
`.storage` member is truthy — and the constructor then requires a `local` or
`sync` area on the chosen API, throwing otherwise. -/

/-- Host environment: which candidate browser API objects exist, whether each
exposes a truthy `.storage`, and which storage areas each `.storage` offers. -/
structure HostEnv where
  chromeDef : Bool          -- `typeof chrome !== 'undefined'`
  chromeStorage : Bool      -- `chrome.storage` truthy
  chromeLocal : Bool        -- `chrome.storage.local` truthy
  chromeSync : Bool         -- `chrome.storage.sync` truthy
  winBrowserDef : Bool      -- `typeof (window as any).browser !== 'undefined'`
  winBrowserStorage : Bool  -- `(window as any).browser.storage` truthy
  winBrowserLocal : Bool
  winBrowserSync : Bool
  winChromeDef : Bool       -- `(window as any).chrome` truthy
  winChromeStorage : Bool   -- `(window as any).chrome.storage` truthy
  winChromeLocal : Bool
  winChromeSync : Bool
  deriving DecidableEq, Repr

/-- Which API object the module-level compatibility layer binds to
`browserAPI` (`storageService.ts` lines 2–13); `apiNone` models
`browserAPI = null`. -/
inductive APIChoice where
  | apiChrome
  | apiWinBrowser
  | apiWinChrome
  | apiNone
  deriving DecidableEq, Repr

def resolveBrowserAPI (e : HostEnv) : APIChoice :=
  if e.chromeDef && e.chromeStorage then .apiChrome
  else if e.winBrowserDef && e.winBrowserStorage then .apiWinBrowser
  else if e.winChromeDef && e.winChromeStorage then .apiWinChrome
  else .apiNone

/-- Whether the chosen API object has a truthy `.storage`. -/
def choiceStorage (e : HostEnv) : APIChoice → Bool
  | .apiChrome => e.chromeStorage
  | .apiWinBrowser => e.winBrowserStorage
  | .apiWinChrome => e.winChromeStorage
  | .apiNone => false

def choiceLocal (e : HostEnv) : APIChoice → Bool
  | .apiChrome => e.chromeLocal
  | .apiWinBrowser => e.winBrowserLocal
  | .apiWinChrome => e.winChromeLocal
  | .apiNone => false

def choiceSync (e : HostEnv) : APIChoice → Bool
  | .apiChrome => e.chromeSync
  | .apiWinBrowser => e.winBrowserSync
  | .apiWinChrome => e.winChromeSync
  | .apiNone => false

/-- Which storage area the constructor ends up using. -/
inductive StorageArea where
  | localArea
  | syncArea
  deriving DecidableEq, Repr

/-- The `StorageService` constructor (`storageService.ts` lines 18–43):
throws when `browserAPI` is null, when it has no `.storage`, or when the
storage object offers neither a `local` nor a `sync` area; otherwise it picks
`local` in preference to `sync`. -/
def mkStorageService (e : HostEnv) : Except String StorageArea :=
  match resolveBrowserAPI e with
  | .apiNone => .error "Browser API not available"
  | api =>
    if !choiceStorage e api then .error "Browser storage API not available"
    else if choiceLocal e api then .ok .localArea
    else if choiceSync e api then .ok .syncArea
    else .error "No storage API available"

/-- A browser storage API with a local or sync area is available somewhere in
the host environment. -/
def storageAvailable (e : HostEnv) : Bool :=
  (e.chromeDef && e.chromeStorage && (e.chromeLocal || e.chromeSync)) ||
  (e.winBrowserDef && e.winBrowserStorage && (e.winBrowserLocal || e.winBrowserSync)) ||
  (e.winChromeDef && e.winChromeStorage && (e.winChromeLocal || e.winChromeSync))

/-- C5: the settings store is a flat key-value store: saving then reading a
key yields the saved value, removing then reading yields null, and saving one
key leaves every other key's value unchanged. -/
theorem saveSetting_getSetting_frame (st : Store) (k k' : String) (v : JVal)
    (h : k' ≠ k) :
    getSetting (saveSetting st k v) k = v ∧
    getSetting (removeSetting st k) k = JVal.jnull ∧
    getSetting (saveSetting st k v) k' = getSetting st k' := by
  refine ⟨?_, ?_, ?_⟩
  · simp [getSetting, saveSetting]
  · simp [getSetting, removeSetting]
  · simp [getSetting, saveSetting, h]

theorem saveSetting_getSetting_frame_witness :
    ("b" : String) ≠ "a" ∧
      (getSetting (saveSetting Store.empty "a" (JVal.jnum 7)) "a" = JVal.jnum 7 ∧
       getSetting (removeSetting Store.empty "a") "a" = JVal.jnull ∧
       getSetting (saveSetting Store.empty "a" (JVal.jnum 7)) "b" =
         getSetting Store.empty "b") :=
  ⟨by decide, saveSetting_getSetting_frame Store.empty "a" "b" (JVal.jnum 7) (by decide)⟩

/-- C8: when no browser storage API with a local or sync area is available in
the host environment, constructing a `StorageService` throws. -/
theorem mkStorageService_error_of_unavailable (e : HostEnv)
    (h : storageAvailable e = false) :
    ∃ msg, mkStorageService e = .error msg := by
  rcases e with ⟨cd, cs, cl, csy, wbd, wbs, wbl, wbsy, wcd, wcs, wcl, wcsy⟩
  simp only [storageAvailable, Bool.or_eq_false_iff, Bool.and_eq_false_iff] at h
  obtain ⟨⟨h1, h2⟩, h3⟩ := h
  unfold mkStorageService resolveBrowserAPI
  cases cd <;> cases cs <;> cases wbd <;> cases wbs <;> cases wcd <;> cases wcs <;>
    simp_all [choiceStorage, choiceLocal, choiceSync]

theorem mkStorageService_error_of_unavailable_witness :
    storageAvailable ⟨true, true, false, false, false, false, false, false,
        false, false, false, false⟩ = false ∧
    ∃ msg, mkStorageService ⟨true, true, false, false, false, false, false, false,
        false, false, false, false⟩ = .error msg :=
  ⟨by decide,
   mkStorageService_error_of_unavailable _ (by decide)⟩

/-! ## Tabs and keyword categorisation (aiService, part_001)

`TabData` (`src/src/types/index.ts`): `id`, `title`, `url` (the optional
`subject` field is never read by any function under verification and is
omitted).  A JavaScript-level entry that is `null` or not an object is
modelled as `Option.none` around `TabData`. -/

structure TabData where
  id : Int
  title : String
  url : String
  deriving DecidableEq, Repr

/-- JS `String.prototype.toLowerCase` (the sources only lowercase ASCII
keywords and ASCII-dominant titles/urls, where the two agree). -/
def jsToLower (s : String) : String := String.mk (s.data.map Char.toLower)

/-- JS `String.prototype.includes` on the underlying character lists: `pat`
occurs as a contiguous substring of `hay` (the empty pattern always occurs). -/
def listIncludes : List Char → List Char → Bool
  | [], pat => pat.isEmpty
  | c :: t, pat => pat.isPrefixOf (c :: t) || listIncludes t pat

/-- JS `s.includes(pat)`. -/
def sIncludes (s pat : String) : Bool := listIncludes s.data pat.data

/-- `categorizeTab` condition block 1 (part_001 lines 228–232): Communication
& Social keywords over the lowercased title and url. -/
def isCommunication (t u : String) : Bool :=
  sIncludes t "whatsapp" || sIncludes t "outlook" || sIncludes t "calendar" ||
  sIncludes t "gmail" || sIncludes t "slack" || sIncludes t "discord" ||
  sIncludes t "linkedin" || sIncludes u "linkedin" || sIncludes u "whatsapp" ||
  sIncludes u "outlook" || sIncludes u "mail"

/-- Condition block 2 (lines 236–239): Development & Documentation. -/
def isDevDoc (t u : String) : Bool :=
  sIncludes t "github" || sIncludes t "api" || sIncludes t "documentation" ||
  sIncludes t "docs" || sIncludes t "developer" || sIncludes u "github" ||
  sIncludes u "developer" || sIncludes u "docs" || sIncludes t "chrome.tabs" ||
  sIncludes t "trpc" || sIncludes t "next.js" || sIncludes t "chakra"

/-- Condition block 3 (lines 244–246): AI Tools & Platforms. -/
def isAITools (t u : String) : Bool :=
  sIncludes t "chatgpt" || sIncludes t "openai" || sIncludes t "cursor" ||
  sIncludes t "ultracite" || sIncludes u "chatgpt" || sIncludes u "openai" ||
  sIncludes u "cursor" || sIncludes u "ultracite"

/-- Condition block 4 (line 251): search / research tabs. -/
def isSearch (t u : String) : Bool :=
  sIncludes t "google search" || sIncludes t "search" || sIncludes u "google.com/search"

/-- Condition block 5 (lines 262–263): government / official documentation. -/
def isGov (t u : String) : Bool :=
  sIncludes u "gov.sg" || sIncludes t "singapore government" ||
  sIncludes t "optical documentation" || sIncludes t "pricing"

/-- Condition block 6 (lines 268–269): development tools & utilities. -/
def isDevUtil (t u : String) : Bool :=
  sIncludes t "uuid" || sIncludes t "generator" || sIncludes t "cuid" ||
  sIncludes t "vercel" || sIncludes t "template" || sIncludes u "localhost"

/-- Condition block 7 (lines 274–275): browser / extension pages. -/
def isBrowserExt (t u : String) : Bool :=
  sIncludes u "about:" || sIncludes u "moz-extension" || sIncludes u "chrome-extension" ||
  sIncludes t "extension" || sIncludes t "debugging"

/-- `AIService.extractDomain` (part_001 lines 283–290): `new URL(url).hostname`,
returning `'Other'` when the URL constructor throws.  The WHATWG URL parser is
a host API; it is modelled by the oracle `hostParse` (`none` = the constructor
throws, `some h` = it yields hostname `h`). -/
def extractDomain (hostParse : String → Option String) (url : String) : String :=
  match hostParse url with
  | some host => host
  | none => "Other"

/-- `AIService.categorizeTab` (part_001 lines 223–281): lowercase the title
and url, walk the keyword rules in order, and fall back to the hostname as the
category. -/
def categorizeTab (hostParse : String → Option String) (tab : TabData) : String :=
  let title := jsToLower tab.title
  let url := jsToLower tab.url
  if isCommunication title url then "Communication & Social"
  else if isDevDoc title url then "Development & Documentation"
  else if isAITools title url then "AI Tools & Platforms"
  else if isSearch title url then
    (if sIncludes title "optical" || sIncludes url "optical" then
        "Research: Optical Technology"
     else if sIncludes title "shiphats" || sIncludes title "gitlab" then
        "Research: Development Tools"
     else "Research & Information")
  else if isGov title url then "Government & Official Documentation"
  else if isDevUtil title url then "Development Tools & Utilities"
  else if isBrowserExt title url then "Browser & Extensions"
  else extractDomain hostParse tab.url

/-- The keyword-rule part of `categorizeTab` in isolation: `some` category
when one of the keyword rules fires, `none` when the routine would fall back
to domain extraction.  Same conditions, in the same order, as the source. -/
def keywordCategory (title url : String) : Option String :=
  let t := jsToLower title
  let u := jsToLower url
  if isCommunication t u then some "Communication & Social"
  else if isDevDoc t u then some "Development & Documentation"
  else if isAITools t u then some "AI Tools & Platforms"
  else if isSearch t u then
    (if sIncludes t "optical" || sIncludes u "optical" then
        some "Research: Optical Technology"
     else if sIncludes t "shiphats" || sIncludes t "gitlab" then
        some "Research: Development Tools"
     else some "Research & Information")
  else if isGov t u then some "Government & Official Documentation"
  else if isDevUtil t u then some "Development Tools & Utilities"
  else if isBrowserExt t u then some "Browser & Extensions"
  else none

/-- C4: `categorizeTab` assigns exactly one category: the first keyword rule
that fires on the lowercased title/url (so the matching is case-insensitive:
any title/url with the same lowercasing is categorised identically), and when
no rule fires, the hostname extracted from the url, or `'Other'` when the URL
cannot be parsed. -/
theorem categorizeTab_spec (hostParse : String → Option String) (tab : TabData)
    (t' u' : String) (ht : jsToLower t' = jsToLower tab.title)
    (hu : jsToLower u' = jsToLower tab.url) :
    categorizeTab hostParse tab
        = (keywordCategory tab.title tab.url).getD (extractDomain hostParse tab.url) ∧
    extractDomain hostParse tab.url = (hostParse tab.url).getD "Other" ∧
    keywordCategory t' u' = keywordCategory tab.title tab.url := by
  refine ⟨?_, ?_, ?_⟩
  · simp only [categorizeTab, keywordCategory]
    split_ifs <;> rfl
  · simp only [extractDomain]
    cases hostParse tab.url <;> rfl
  · simp only [keywordCategory, ht, hu]

theorem categorizeTab_spec_witness :
    jsToLower "WhatsApp WEB" = jsToLower "whatsapp web" ∧
    jsToLower "HTTPS://EXAMPLE.COM/" = jsToLower "https://example.com/" ∧
    (categorizeTab (fun _ => none) ⟨1, "whatsapp web", "https://example.com/"⟩
        = (keywordCategory "whatsapp web" "https://example.com/").getD
            (extractDomain (fun _ => none) "https://example.com/") ∧
     extractDomain (fun _ => none) "https://example.com/"
        = ((fun (_ : String) => none : String → Option String) "https://example.com/").getD "Other" ∧
     keywordCategory "WhatsApp WEB" "HTTPS://EXAMPLE.COM/"
        = keywordCategory "whatsapp web" "https://example.com/") :=
  ⟨by decide, by decide,
   categorizeTab_spec (fun _ => none) ⟨1, "whatsapp web", "https://example.com/"⟩
     "WhatsApp WEB" "HTTPS://EXAMPLE.COM/" (by decide) (by decide)⟩

/-! ## Fallback grouping (claims C10, C4)

`AIService.createFallbackGrouping` (part_001 lines 174–221): walk the tabs,
skip entries that are not objects or lack a truthy `url`/`title`, and push
each remaining tab onto `groups[categorizeTab(tab)]` in a plain object used
as an insertion-ordered association list (the category keys produced are
never integer-like, so JS property order is insertion order). -/

/-- The guard `!tab || typeof tab !== 'object' || !tab.url || !tab.title`
restricted to an actual tab object: both strings must be truthy (non-empty). -/
def qualifiesTab (t : TabData) : Bool := t.url != "" && t.title != ""

structure FBGroup where
  subject : String
  tabs : List TabData
  deriving DecidableEq, Repr

structure FBResponse where
  groups : List FBGroup
  suggestions : List String
  deriving DecidableEq, Repr

/-- `if (!groups[category]) groups[category] = []; groups[category].push(tab)`
on the insertion-ordered association list. -/
def fbInsert (acc : List (String × List TabData)) (cat : String) (t : TabData) :
    List (String × List TabData) :=
  if acc.any (fun p => p.1 = cat) then
    acc.map (fun p => if p.1 = cat then (p.1, p.2 ++ [t]) else p)
  else acc ++ [(cat, [t])]

/-- One iteration of the `tabs.forEach` loop; a `none` entry is a `null` or
non-object element, which the guard skips. -/
def fbStep (hostParse : String → Option String)
    (acc : List (String × List TabData)) (ot : Option TabData) :
    List (String × List TabData) :=
  match ot with
  | none => acc
  | some t =>
    if qualifiesTab t then fbInsert acc (categorizeTab hostParse t) t else acc

/-- `AIService.createFallbackGrouping`; the `none` input models a non-array
argument (`!Array.isArray(tabs)`). -/
def createFallbackGrouping (hostParse : String → Option String) :
    Option (List (Option TabData)) → List FBResponse
  | none =>
      [⟨[], ["No tabs available for grouping - input was not an array"]⟩]
  | some [] =>
      [⟨[], ["No tabs available for grouping - empty array"]⟩]
  | some l =>
      let gs := l.foldl (fbStep hostParse) []
      [⟨gs.map (fun p => ⟨p.1, p.2⟩),
        ["Group by semantic topic", "Group by work context",
         "Group by purpose and function"]⟩]

/-- Invariant of the `forEach` accumulation: category keys are distinct, every
bucket is non-empty and holds only qualifying, already-processed tabs filed
under their own category, and every qualifying processed tab is in the bucket
of its category. -/
def fbInv (hostParse : String → Option String) (processed : List (Option TabData))
    (acc : List (String × List TabData)) : Prop :=
  (acc.map Prod.fst).Nodup ∧
  (∀ p ∈ acc, p.2 ≠ [] ∧ ∀ t ∈ p.2,
      qualifiesTab t = true ∧ categorizeTab hostParse t = p.1 ∧ some t ∈ processed) ∧
  (∀ t : TabData, some t ∈ processed → qualifiesTab t = true →
      ∃ p ∈ acc, p.1 = categorizeTab hostParse t ∧ t ∈ p.2)

lemma fbInv_nil (hostParse : String → Option String) : fbInv hostParse [] [] := by
  refine ⟨List.nodup_nil, by simp, by simp⟩

lemma fbInv_step (hostParse : String → Option String)
    (processed : List (Option TabData)) (acc : List (String × List TabData))
    (ot : Option TabData) (h : fbInv hostParse processed acc) :
    fbInv hostParse (processed ++ [ot]) (fbStep hostParse acc ot) := by
  obtain ⟨hnd, hmem, hcov⟩ := h
  have hmono : ∀ t : TabData, some t ∈ processed → some t ∈ processed ++ [ot] :=
    fun t ht => List.mem_append_left _ ht
  cases ot with
  | none =>
    refine ⟨hnd, fun p hp => ⟨(hmem p hp).1, fun t ht => ?_⟩, fun t ht hq => ?_⟩
    · obtain ⟨h1, h2, h3⟩ := (hmem p hp).2 t ht
      exact ⟨h1, h2, hmono t h3⟩
    · rcases List.mem_append.1 ht with ht' | ht'
      · exact hcov t ht' hq
      · simp at ht'
  | some t0 =>
    by_cases hq0 : qualifiesTab t0 = true
    · simp only [fbStep, hq0, if_pos]
      set cat := categorizeTab hostParse t0 with hcat
      by_cases hin : acc.any (fun p => p.1 = cat) = true
      · -- category already present: append to its bucket
        simp only [fbInsert, hin, if_pos]
        have hfst : (acc.map (fun p => if p.1 = cat then (p.1, p.2 ++ [t0]) else p)).map
            Prod.fst = acc.map Prod.fst := by
          rw [List.map_map]
          refine List.map_congr_left (fun p _ => ?_)
          by_cases hp : p.1 = cat <;> simp [hp]
        refine ⟨by rw [hfst]; exact hnd, ?_, ?_⟩
        · intro p hp
          obtain ⟨q, hq, rfl⟩ := List.mem_map.1 hp
          by_cases hq1 : q.1 = cat
          · simp only [hq1, if_pos]
            refine ⟨by simp, fun t ht => ?_⟩
            rcases List.mem_append.1 ht with ht' | ht'
            · obtain ⟨h1, h2, h3⟩ := (hmem q hq).2 t ht'
              exact ⟨h1, by simpa [hq1] using h2, hmono t h3⟩
            · simp only [List.mem_singleton] at ht'
              subst ht'
              exact ⟨hq0, by simp [hq1, hcat], List.mem_append_right _ (by simp)⟩
          · simp only [hq1, if_neg, ite_false]
            refine ⟨(hmem q hq).1, fun t ht => ?_⟩
            obtain ⟨h1, h2, h3⟩ := (hmem q hq).2 t ht
            exact ⟨h1, h2, hmono t h3⟩
        · intro t ht hq
          rcases List.mem_append.1 ht with ht' | ht'
          · obtain ⟨p, hp, hp1, hp2⟩ := hcov t ht' hq
            by_cases hpc : p.1 = cat
            · refine ⟨(p.1, p.2 ++ [t0]), ?_, hp1, List.mem_append_left _ hp2⟩
              have := List.mem_map_of_mem
                (fun q => if q.1 = cat then (q.1, q.2 ++ [t0]) else q) hp
              simpa [hpc] using this
            · refine ⟨p, ?_, hp1, hp2⟩
              have := List.mem_map_of_mem
                (fun q => if q.1 = cat then (q.1, q.2 ++ [t0]) else q) hp
              simpa [hpc] using this
          · simp only [List.mem_singleton, Option.some.injEq] at ht'
            obtain ⟨p, hp, hpc⟩ := List.any_eq_true.1 hin
            have hpc' : p.1 = cat := by simpa using hpc
            refine ⟨(p.1, p.2 ++ [t0]), ?_, ?_, ?_⟩
            · have := List.mem_map_of_mem
                (fun q => if q.1 = cat then (q.1, q.2 ++ [t0]) else q) hp
              simpa [hpc'] using this
            · rw [hpc', ht', hcat]
            · rw [ht']
              simp
      · -- new category: append a fresh bucket
        simp only [fbInsert]
        rw [if_neg hin]
        have hnotin : cat ∉ acc.map Prod.fst := by
          intro hc
          obtain ⟨p, hp, hp1⟩ := List.mem_map.1 hc
          exact hin (List.any_eq_true.2 ⟨p, hp, by simp [hp1]⟩)
        refine ⟨?_, ?_, ?_⟩
        · rw [List.map_append]
          simpa using List.Nodup.append hnd (by simp) (by
            intro a ha hb
            simp only [List.map_cons, List.map_nil, List.mem_singleton] at hb
            subst hb
            exact hnotin ha)
        · intro p hp
          rcases List.mem_append.1 hp with hp' | hp'
          · refine ⟨(hmem p hp').1, fun t ht => ?_⟩
            obtain ⟨h1, h2, h3⟩ := (hmem p hp').2 t ht
            exact ⟨h1, h2, hmono t h3⟩
          · simp only [List.mem_singleton] at hp'
            subst hp'
            refine ⟨by simp, fun t ht => ?_⟩
            simp only [List.mem_singleton] at ht
            subst ht
            exact ⟨hq0, hcat.symm, List.mem_append_right _ (by simp)⟩
        · intro t ht hq
          rcases List.mem_append.1 ht with ht' | ht'
          · obtain ⟨p, hp, hp1, hp2⟩ := hcov t ht' hq
            exact ⟨p, List.mem_append_left _ hp, hp1, hp2⟩
          · simp only [List.mem_singleton, Option.some.injEq] at ht'
            refine ⟨(cat, [t0]), List.mem_append_right _ (by simp), ?_, ?_⟩
            · rw [ht', hcat]
            · rw [ht']
              simp
    · simp only [fbStep, hq0, if_neg, Bool.not_eq_true, ite_false]
      refine ⟨hnd, fun p hp => ⟨(hmem p hp).1, fun t ht => ?_⟩, fun t ht hq => ?_⟩
      · obtain ⟨h1, h2, h3⟩ := (hmem p hp).2 t ht
        exact ⟨h1, h2, hmono t h3⟩
      · rcases List.mem_append.1 ht with ht' | ht'
        · exact hcov t ht' hq
        · simp only [List.mem_singleton, Option.some.injEq] at ht'
          exact absurd (ht' ▸ hq) hq0

lemma fbInv_foldl (hostParse : String → Option String) :
    ∀ (l pre : List (Option TabData)) (acc : List (String × List TabData)),
      fbInv hostParse pre acc →
      fbInv hostParse (pre ++ l) (l.foldl (fbStep hostParse) acc)
  | [], pre, acc, h => by simpa using h
  | ot :: rest, pre, acc, h => by
    have h1 := fbInv_step hostParse pre acc ot h
    have h2 := fbInv_foldl hostParse rest (pre ++ [ot]) (fbStep hostParse acc ot) h1
    simpa using h2

lemma eq_of_mem_nodup_fst {l : List (String × List TabData)}
    (h : (l.map Prod.fst).Nodup) {p q : String × List TabData}
    (hp : p ∈ l) (hq : q ∈ l) (he : p.1 = q.1) : p = q := by
  induction l with
  | nil => simp at hp
  | cons a l ih =>
    simp only [List.map_cons, List.nodup_cons] at h
    rcases List.mem_cons.1 hp with rfl | hp' <;> rcases List.mem_cons.1 hq with rfl | hq'
    · rfl
    · have : q.1 ∈ l.map Prod.fst := List.mem_map_of_mem Prod.fst hq'
      rw [← he] at this
      exact absurd this h.1
    · have : p.1 ∈ l.map Prod.fst := List.mem_map_of_mem Prod.fst hp'
      rw [he] at this
      exact absurd this h.1
    · exact ih h.2 hp' hq'

/-- C10: `createFallbackGrouping` returns exactly one `AIResponse`; its groups
are all non-empty and contain only qualifying input tabs; every qualifying
input tab lies in exactly one group; and a non-array or empty input yields a
single response with no groups. -/
theorem createFallbackGrouping_partition (hostParse : String → Option String)
    (tabs : Option (List (Option TabData))) :
    (createFallbackGrouping hostParse tabs).length = 1 ∧
    ∀ r ∈ createFallbackGrouping hostParse tabs,
      (∀ g ∈ r.groups, g.tabs ≠ []) ∧
      (∀ g ∈ r.groups, ∀ t ∈ g.tabs, qualifiesTab t = true ∧
          ∃ l, tabs = some l ∧ some t ∈ l) ∧
      (∀ l, tabs = some l → ∀ t : TabData, some t ∈ l → qualifiesTab t = true →
          ∃ g, g ∈ r.groups ∧ t ∈ g.tabs ∧ ∀ g' ∈ r.groups, t ∈ g'.tabs → g' = g) ∧
      (tabs = none → r.groups = []) ∧
      (tabs = some [] → r.groups = []) := by
  match tabs with
  | none =>
    refine ⟨rfl, fun r hr => ?_⟩
    simp only [createFallbackGrouping, List.mem_singleton] at hr
    subst hr
    refine ⟨by simp, by simp, by simp, fun _ => rfl, by simp⟩
  | some [] =>
    refine ⟨rfl, fun r hr => ?_⟩
    simp only [createFallbackGrouping, List.mem_singleton] at hr
    subst hr
    refine ⟨by simp, by simp, ?_, by simp, fun _ => rfl⟩
    intro l hl t htl
    simp only [Option.some.injEq] at hl
    subst hl
    simp at htl
  | some (a :: l') =>
    have hinv := fbInv_foldl hostParse (a :: l') [] [] (fbInv_nil hostParse)
    simp only [List.nil_append] at hinv
    obtain ⟨hnd, hmem, hcov⟩ := hinv
    refine ⟨rfl, fun r hr => ?_⟩
    simp only [createFallbackGrouping, List.mem_singleton] at hr
    subst hr
    set gs := (a :: l').foldl (fbStep hostParse) [] with hgs
    refine ⟨?_, ?_, ?_, by simp, by simp⟩
    · intro g hg
      obtain ⟨p, hp, rfl⟩ := List.mem_map.1 hg
      exact (hmem p hp).1
    · intro g hg t ht
      obtain ⟨p, hp, rfl⟩ := List.mem_map.1 hg
      obtain ⟨h1, _, h3⟩ := (hmem p hp).2 t ht
      exact ⟨h1, a :: l', rfl, h3⟩
    · intro l hl t htl hq
      simp only [Option.some.injEq] at hl
      subst hl
      obtain ⟨p, hp, hp1, hp2⟩ := hcov t htl hq
      refine ⟨⟨p.1, p.2⟩, List.mem_map_of_mem _ hp, hp2, ?_⟩
      intro g' hg' ht'
      obtain ⟨q, hq', rfl⟩ := List.mem_map.1 hg'
      have hq1 : q.1 = categorizeTab hostParse t := (((hmem q hq').2 t ht').2.1).symm
      have : q = p := eq_of_mem_nodup_fst hnd hq' hp (by rw [hq1, hp1])
      rw [this]

theorem createFallbackGrouping_partition_witness :
    (createFallbackGrouping (fun _ => none)
        (some [some ⟨1, "GitHub - repo", "https://github.com/x"⟩, none,
               some ⟨2, "", "https://a.example/"⟩])).length = 1 ∧
    (∃ r, r ∈ createFallbackGrouping (fun _ => none)
        (some [some ⟨1, "GitHub - repo", "https://github.com/x"⟩, none,
               some ⟨2, "", "https://a.example/"⟩]) ∧
      ∃ g, g ∈ r.groups ∧ (⟨1, "GitHub - repo", "https://github.com/x"⟩ : TabData) ∈ g.tabs ∧
        ∀ g' ∈ r.groups,
          (⟨1, "GitHub - repo", "https://github.com/x"⟩ : TabData) ∈ g'.tabs → g' = g) := by
  have h := createFallbackGrouping_partition (fun _ => none)
    (some [some ⟨1, "GitHub - repo", "https://github.com/x"⟩, none,
           some ⟨2, "", "https://a.example/"⟩])
  refine ⟨h.1, ?_⟩
  obtain ⟨r, hr⟩ : ∃ r, r ∈ createFallbackGrouping (fun _ => none)
      (some [some ⟨1, "GitHub - repo", "https://github.com/x"⟩, none,
             some ⟨2, "", "https://a.example/"⟩]) :=
    ⟨⟨[⟨"Development & Documentation", [⟨1, "GitHub - repo", "https://github.com/x"⟩]⟩],
      ["Group by semantic topic", "Group by work context",
       "Group by purpose and function"]⟩, by decide⟩
  obtain ⟨g, hg1, hg2, hg3⟩ := ((h.2 r hr).2.2.1 _ rfl
    ⟨1, "GitHub - repo", "https://github.com/x"⟩ (by decide) (by decide))
  exact ⟨r, hr, g, hg1, hg2, hg3⟩

/-! ## The JSON repair pipeline of `analyzeTabs` (claim C2)

`part_001` lines 130–147: trim the content, extract the first match of
`/\{[\s\S]*\}/` if any, then three global regex replacements, then
`JSON.parse`.  The replacements are modelled as left-to-right scanners over
the character list with exactly the regex's matching discipline. -/

/-- JS regex `\s` restricted to the ASCII range (the AI responses being
repaired are ASCII JSON text). -/
def jsWs (c : Char) : Bool :=
  c = ' ' || c = '\t' || c = '\n' || c = '\r' || c = '\x0b' || c = '\x0c'

/-- JS `String.prototype.trim` (ASCII whitespace). -/
def jsTrim (s : String) : String :=
  String.mk (((s.data.dropWhile jsWs).reverse.dropWhile jsWs).reverse)

/-- `cleanedContent.match(/\{[\s\S]*\}/)` (part_001 lines 135–138): the first
(leftmost-starting, greedy) match runs from the first `{` to the last `}` of
the string, and exists precisely when some `}` occurs after the first `{`;
without a match the content is left unchanged. -/
def extractJson (s : String) : String :=
  let tail := s.data.dropWhile (fun c => !(c = '{'))
  let rtail := tail.reverse.dropWhile (fun c => !(c = '}'))
  if rtail.isEmpty then s else String.mk rtail.reverse

/-- `.replace(/,(\s*[}\]])/g, '$1')` (part_001 line 142): every comma followed
by (maximal) whitespace and then `}` or `]` is dropped, keeping the
whitespace and bracket; of a run of consecutive commas only the last one is
removed (a comma directly followed by another comma does not match).  The
scanner drops a matching comma and continues with the rest of the text: the
skipped whitespace and bracket contain no `,`, so no further match can start
inside them and this agrees with the regex resuming after the bracket. -/
def rmTrailingCommas : List Char → List Char
  | [] => []
  | c :: rest =>
    if c = ',' then
      match rest.dropWhile jsWs with
      | b :: _ =>
        if b = '}' ∨ b = ']' then rmTrailingCommas rest
        else c :: rmTrailingCommas rest
      | [] => c :: rmTrailingCommas rest
    else c :: rmTrailingCommas rest

/-- JS regex `\w`: `[A-Za-z0-9_]`. -/
def isWordChar (c : Char) : Bool := c.isAlphanum || c = '_'

/-- Scanner state for `quoteKeys`: either plain scanning, or just past a `{`
or `,` (`opener`) buffering the whitespace run, or additionally buffering a
word-character run. -/
inductive QKState where
  | scan
  | inWs (opener : Char) (ws : List Char)
  | inWord (opener : Char) (ws w : List Char)

/-- `.replace(/([{,]\s*)(\w+):/g, '$1"$2":')` (part_001 line 143): after a `{`
or `,` plus (maximal) whitespace, a non-empty maximal run of word characters
directly followed by `:` is wrapped in double quotes; scanning resumes after
the `:`.  A failed attempt flushes the buffered text verbatim and rescans
from the first character that broke the pattern; the skipped whitespace and
word characters contain no `{` or `,`, so no match can start inside them and
this agrees with the regex advancing its start position. -/
def qkRun : QKState → List Char → List Char
  | .scan, [] => []
  | .inWs opener ws, [] => opener :: ws
  | .inWord opener ws w, [] => opener :: (ws ++ w)
  | .scan, c :: rest =>
    if c = '{' ∨ c = ',' then qkRun (.inWs c []) rest
    else c :: qkRun .scan rest
  | .inWs opener ws, c :: rest =>
    if jsWs c then qkRun (.inWs opener (ws ++ [c])) rest
    else if isWordChar c then qkRun (.inWord opener ws [c]) rest
    else if c = '{' ∨ c = ',' then opener :: (ws ++ qkRun (.inWs c []) rest)
    else opener :: (ws ++ c :: qkRun .scan rest)
  | .inWord opener ws w, c :: rest =>
    if isWordChar c then qkRun (.inWord opener ws (w ++ [c])) rest
    else if c = ':' then
      opener :: (ws ++ '"' :: (w ++ '"' :: ':' :: qkRun .scan rest))
    else if c = '{' ∨ c = ',' then opener :: (ws ++ w ++ qkRun (.inWs c []) rest)
    else opener :: (ws ++ w ++ c :: qkRun .scan rest)

def quoteKeys (cs : List Char) : List Char := qkRun .scan cs

/-- Scanner state for `fixSingleQuotes`: plain scanning, past a `:` buffering
whitespace, or inside the single-quoted run buffering its content. -/
inductive FSQState where
  | scan
  | inWs (ws : List Char)
  | inContent (ws content : List Char)

/-- `.replace(/:\s*'([^']*)'/g, ': "$1"')` (part_001 line 144): a colon, then
(maximal) whitespace, then a single-quoted run without inner quotes becomes
the colon, one space, and the run double-quoted (the matched whitespace is
collapsed to the single space of the replacement text); scanning resumes
after the closing quote.  A failed attempt flushes the buffered text verbatim
and rescans from the breaking character; the skipped whitespace contains no
`:` and an unterminated quoted run contains no later quote, so no match can
start inside the skipped text. -/
def fsqRun : FSQState → List Char → List Char
  | .scan, [] => []
  | .inWs ws, [] => ':' :: ws
  | .inContent ws content, [] => ':' :: (ws ++ '\'' :: content)
  | .scan, c :: rest =>
    if c = ':' then fsqRun (.inWs []) rest
    else c :: fsqRun .scan rest
  | .inWs ws, c :: rest =>
    if jsWs c then fsqRun (.inWs (ws ++ [c])) rest
    else if c = '\'' then fsqRun (.inContent ws []) rest
    else if c = ':' then ':' :: (ws ++ fsqRun (.inWs []) rest)
    else ':' :: (ws ++ c :: fsqRun .scan rest)
  | .inContent ws content, c :: rest =>
    if c = '\'' then
      ':' :: ' ' :: '"' :: (content ++ '"' :: fsqRun .scan rest)
    else fsqRun (.inContent ws (content ++ [c])) rest

def fixSingleQuotes (cs : List Char) : List Char := fsqRun .scan cs

/-- The complete repair applied to the AI response content before
`JSON.parse` (part_001 lines 132–144), in source order: trim, extract the
brace-delimited match, drop trailing commas, double-quote unquoted keys,
convert single-quoted values to double quotes. -/
def cleanJsonContent (content : String) : String :=
  String.mk (fixSingleQuotes (quoteKeys (rmTrailingCommas (extractJson (jsTrim content)).data)))

/-! ## Parsed JSON, response validation, and `analyzeTabs` (claims C2, C3, C6, C9) -/

/-- A parsed JSON document (what a successful `JSON.parse` yields).
`JSON.parse` keeps only the last occurrence of a duplicated object key, so
parsed objects are modelled with unique keys and first-match lookup. -/
inductive Json where
  | jnull
  | jbool (b : Bool)
  | jnum (n : Int)
  | jstr (s : String)
  | jarr (elems : List Json)
  | jobj (fields : List (String × Json))
  deriving Repr

/-- JavaScript truthiness of a parsed JSON value: arrays and objects are
always truthy. -/
def Json.truthy : Json → Bool
  | .jnull => false
  | .jbool b => b
  | .jnum n => n != 0
  | .jstr s => s != ""
  | .jarr _ => true
  | .jobj _ => true

/-- JS property read `o[k]` on a parsed object. -/
def jLookup (fields : List (String × Json)) (k : String) : Option Json :=
  (fields.find? (fun p => p.1 = k)).map (fun p => p.2)

/-- A group as produced by `validateAndFormatResponse`
(part_001 lines 426–442 and 502–518): `subject` is `group.subject ||
'Unknown'` — the raw value when truthy, otherwise the string `'Unknown'`
(property access on a falsy group or a truthy non-object yields undefined) —
and `tabs` is `group.tabs` when that is an array and `[]` otherwise. -/
structure RGroup where
  subject : Json
  tabs : List Json

structure RResp where
  groups : List RGroup
  suggestions : List Json

def mapGroup (g : Json) : RGroup :=
  if !g.truthy then ⟨.jstr "Unknown", []⟩
  else
    match g with
    | .jobj fields =>
      ⟨(match jLookup fields "subject" with
        | some v => if v.truthy then v else .jstr "Unknown"
        | none => .jstr "Unknown"),
       (match jLookup fields "tabs" with
        | some (.jarr xs) => xs
        | _ => [])⟩
    | _ => ⟨.jstr "Unknown", []⟩

/-- `Array.isArray(x.suggestions) ? x.suggestions : []`. -/
def suggestionsOf (j : Json) : List Json :=
  match j with
  | .jobj fields =>
    match jLookup fields "suggestions" with
    | some (.jarr xs) => xs
    | _ => []
  | _ => []

/-- A tab as serialised into a JSON response (for comparing the fallback
grouping, which works on `TabData`, with validated AI output). -/
def encodeTab (t : TabData) : Json :=
  .jobj [("id", .jnum t.id), ("title", .jstr t.title), ("url", .jstr t.url)]

def encodeFB (r : FBResponse) : RResp :=
  ⟨r.groups.map (fun g => ⟨.jstr g.subject, g.tabs.map encodeTab⟩),
   r.suggestions.map .jstr⟩

/-- `createFallbackGrouping` as it appears in the `AIResponse[]` result type
of `analyzeTabs`. -/
def fallbackR (hostParse : String → Option String)
    (tabs : Option (List (Option TabData))) : List RResp :=
  (createFallbackGrouping hostParse tabs).map encodeFB

/-- One item of the array branch of `validateAndFormatResponse`
(part_001 lines 473–527): falsy and non-`object`-typed items are skipped
(`continue`); an object without a `groups` array contributes empty groups; a
parsed array is `object`-typed but has no `groups`/`suggestions` properties. -/
def validateItem (item : Json) : Option RResp :=
  match item with
  | .jobj fields =>
    (match jLookup fields "groups" with
     | some (.jarr gs) => some ⟨gs.map mapGroup, suggestionsOf (.jobj fields)⟩
     | _ => some ⟨[], suggestionsOf (.jobj fields)⟩)
  | .jarr _ => some ⟨[], []⟩
  | _ => none

/-- `AIService.validateAndFormatResponse` (part_001 lines 400–536): a single
(non-array) object with a `groups` array is wrapped into a one-element list;
a single object without one falls back; an array is validated item by item,
falling back when nothing valid remains; any other value falls back. -/
def validateAndFormatResponse (hostParse : String → Option String) (j : Json)
    (tabs : List (Option TabData)) : List RResp :=
  match j with
  | .jobj fields =>
    (match jLookup fields "groups" with
     | some (.jarr gs) => [⟨gs.map mapGroup, suggestionsOf (.jobj fields)⟩]
     | _ => fallbackR hostParse (some tabs))
  | .jarr items =>
    let validated := items.filterMap validateItem
    if validated.isEmpty then fallbackR hostParse (some tabs) else validated
  | _ => fallbackR hostParse (some tabs)

/-- JS `s.startsWith(pre)`. -/
def jsStartsWith (s pre : String) : Bool := pre.data.isPrefixOf s.data

/-- `AIService.getApiKey` (part_001 lines 30–49) over the settings store:
read `openai_api_key` (null when the key is missing); when the value is a
truthy string, keep it if it starts with `sk-` and is longer than 20
characters, and otherwise clear the stored key and return null; any other
value (including falsy strings) is returned exactly as read. -/
def getApiKey (st : Store) : JVal × Store :=
  match getSetting st "openai_api_key" with
  | .jstr s =>
    if s != "" then
      (if jsStartsWith s "sk-" && decide (s.length > 20) then (JVal.jstr s, st)
       else (JVal.jnull, removeSetting st "openai_api_key"))
    else (.jstr s, st)
  | v => (v, st)

/-- Outcome of the host `fetch` of the OpenAI chat-completions endpoint as
seen by `analyzeTabs`: the promise rejects (also covering a throwing
`response.json()` / `response.text()` — all are caught by the same
`try`/`catch`), or a non-OK HTTP status arrives, or a body arrives whose
`data.choices[0]?.message?.content || ''` is `content` (an absent field and
an empty string are both the empty `content`). -/
inductive FetchResult where
  | netErr
  | respErr (status : Nat) (body : String)
  | respOk (content : String)
  deriving Repr

/-- Host environment of one `analyzeTabs` call: the settings store, the fetch
outcome, the host `JSON.parse` (`none` = it throws) and the host URL parser
used by the fallback grouping. -/
structure AIEnv where
  store : Store
  fetch : FetchResult
  parseJson : String → Option Json
  hostParse : String → Option String

/-- Observable network effect: the one POST to the chat-completions URL,
carrying the mapped tabs of the request body. -/
inductive AEvent where
  | fetchCall (body : List TabData)

/-- `tabs.map(...)` of part_001 lines 81–87: a null entry becomes the
placeholder tab. -/
def mappedTabs (l : List (Option TabData)) : List TabData :=
  l.map (fun ot => ot.getD ⟨0, "Unknown", "about:blank"⟩)

structure AIOutcome where
  trace : List AEvent
  store : Store
  result : Except String (List RResp)

/-- `AIService.analyzeTabs` (part_001 lines 56–172).  A `none` input models a
non-array argument, which short-circuits to `createFallbackGrouping([])`
before the API-key check.  The key check happens outside the `try`, so its
throw propagates; everything after it is inside the `try`, whose `catch`
returns the fallback grouping. -/
def analyzeTabs (env : AIEnv) (tabs : Option (List (Option TabData))) : AIOutcome :=
  match tabs with
  | none => ⟨[], env.store, .ok (fallbackR env.hostParse (some []))⟩
  | some l =>
    let ks := getApiKey env.store
    if !ks.1.truthy then
      ⟨[], ks.2,
        .error "OpenAI API key not found. Please set your API key in the extension options."⟩
    else
      let ev := [AEvent.fetchCall (mappedTabs l)]
      match env.fetch with
      | .netErr => ⟨ev, ks.2, .ok (fallbackR env.hostParse (some l))⟩
      | .respErr _ _ => ⟨ev, ks.2, .ok (fallbackR env.hostParse (some l))⟩
      | .respOk content =>
        if content = "" then ⟨ev, ks.2, .ok (fallbackR env.hostParse (some l))⟩
        else
          match env.parseJson (cleanJsonContent content) with
          | some j => ⟨ev, ks.2, .ok (validateAndFormatResponse env.hostParse j l)⟩
          | none => ⟨ev, ks.2, .ok (fallbackR env.hostParse (some l))⟩

/-- The call threw (`Promise` rejected). -/
def isThrow : Except String (List RResp) → Bool
  | .error _ => true
  | .ok _ => false

/-- C2: on an OK response with non-empty content, `analyzeTabs` repairs the
content by trimming, extracting the first `/\{[\s\S]*\}/` match, removing
trailing commas, double-quoting unquoted keys and converting single-quoted
values — in exactly that order — hands the repaired string to `JSON.parse`,
and returns the fallback grouping instead of propagating a parse error. -/
theorem analyzeTabs_repair_pipeline (env : AIEnv) (l : List (Option TabData))
    (c : String) (hc : env.fetch = .respOk c) (hne : c ≠ "")
    (hkey : (getApiKey env.store).1.truthy = true) :
    (analyzeTabs env (some l)).result =
      .ok (match env.parseJson (cleanJsonContent c) with
        | some j => validateAndFormatResponse env.hostParse j l
        | none => fallbackR env.hostParse (some l)) ∧
    cleanJsonContent c =
      String.mk (fixSingleQuotes (quoteKeys (rmTrailingCommas
        (extractJson (jsTrim c)).data))) := by
  refine ⟨?_, rfl⟩
  simp only [analyzeTabs, hc, hkey, Bool.not_true, Bool.false_eq_true, if_false, hne,
    ite_false]
  cases env.parseJson (cleanJsonContent c) <;> rfl

def c2Store : Store :=
  saveSetting Store.empty "openai_api_key" (JVal.jstr "sk-abcdefghijklmnopqrstu")

def c2Env : AIEnv := ⟨c2Store, .respOk "{}", fun _ => none, fun _ => none⟩

theorem analyzeTabs_repair_pipeline_witness :
    c2Env.fetch = .respOk "{}" ∧ ("{}" : String) ≠ "" ∧
    (getApiKey c2Env.store).1.truthy = true ∧
    ((analyzeTabs c2Env (some [])).result =
      .ok (match c2Env.parseJson (cleanJsonContent "{}") with
        | some j => validateAndFormatResponse c2Env.hostParse j []
        | none => fallbackR c2Env.hostParse (some [])) ∧
     cleanJsonContent "{}" =
      String.mk (fixSingleQuotes (quoteKeys (rmTrailingCommas
        (extractJson (jsTrim "{}")).data)))) :=
  ⟨rfl, by decide, by decide,
   analyzeTabs_repair_pipeline c2Env [] "{}" rfl (by decide) (by decide)⟩

/-- C3: `analyzeTabs` throws exactly when its argument is an array and no
truthy API key is available, and then with the fixed message; with a key
present, a network error, a non-OK HTTP status, empty content, or a parse
failure of the repaired content all yield the fallback grouping of the input
tabs rather than a throw. -/
theorem analyzeTabs_error_modes (env : AIEnv) (tabs : Option (List (Option TabData))) :
    (isThrow (analyzeTabs env tabs).result = true ↔
      tabs ≠ none ∧ (getApiKey env.store).1.truthy = false) ∧
    (isThrow (analyzeTabs env tabs).result = true →
      (analyzeTabs env tabs).result =
        .error "OpenAI API key not found. Please set your API key in the extension options.") ∧
    (∀ l, tabs = some l → (getApiKey env.store).1.truthy = true →
      (env.fetch = .netErr ∨ (∃ st b, env.fetch = .respErr st b) ∨
        env.fetch = .respOk "" ∨
        (∃ c, env.fetch = .respOk c ∧ c ≠ "" ∧
          env.parseJson (cleanJsonContent c) = none)) →
      (analyzeTabs env tabs).result = .ok (fallbackR env.hostParse (some l))) := by
  refine ⟨?_, ?_, ?_⟩
  · cases tabs with
    | none => simp [analyzeTabs, isThrow]
    | some l =>
      by_cases hk : (getApiKey env.store).1.truthy = true
      · simp only [analyzeTabs, hk, Bool.not_true, Bool.false_eq_true, if_false]
        rcases env.fetch with _ | ⟨st, b⟩ | content
        · simp [isThrow, hk]
        · simp [isThrow, hk]
        · by_cases hco : content = ""
          · simp [hco, isThrow, hk]
          · simp only [hco, ite_false]
            cases env.parseJson (cleanJsonContent content) <;> simp [isThrow, hk]
      · have hk' : (getApiKey env.store).1.truthy = false := by
          revert hk
          cases (getApiKey env.store).1.truthy <;> simp
        simp [analyzeTabs, hk', isThrow]
  · cases tabs with
    | none => simp [analyzeTabs, isThrow]
    | some l =>
      by_cases hk : (getApiKey env.store).1.truthy = true
      · simp only [analyzeTabs, hk, Bool.not_true, Bool.false_eq_true, if_false]
        rcases env.fetch with _ | ⟨st, b⟩ | content
        · simp [isThrow]
        · simp [isThrow]
        · by_cases hco : content = ""
          · simp [hco, isThrow]
          · simp only [hco, ite_false]
            cases env.parseJson (cleanJsonContent content) <;> simp [isThrow]
      · have hk' : (getApiKey env.store).1.truthy = false := by
          revert hk
          cases (getApiKey env.store).1.truthy <;> simp
        intro _
        simp [analyzeTabs, hk']
  · intro l hl hk hmode
    subst hl
    simp only [analyzeTabs, hk, Bool.not_true, Bool.false_eq_true, if_false]
    rcases hmode with h | ⟨st, b, h⟩ | h | ⟨c, h, hne, hp⟩ <;> rw [h] <;> simp_all

def c3Env : AIEnv := ⟨c2Store, .netErr, fun _ => none, fun _ => none⟩

theorem analyzeTabs_error_modes_witness :
    ((Option.some ([] : List (Option TabData))) = some [] ∧
     (getApiKey c3Env.store).1.truthy = true ∧
     c3Env.fetch = .netErr) ∧
    (analyzeTabs c3Env (some [])).result = .ok (fallbackR c3Env.hostParse (some [])) :=
  ⟨⟨rfl, by decide, rfl⟩,
   (analyzeTabs_error_modes c3Env (some [])).2.2 [] rfl (by decide) (Or.inl rfl)⟩

/-- C6: one `analyzeTabs` invocation performs at most one network request,
and its result is the thrown no-key error, a fallback grouping, or the
validation of the single parsed response — never the product of several AI
calls. -/
theorem analyzeTabs_at_most_one_fetch (env : AIEnv)
    (tabs : Option (List (Option TabData))) :
    (analyzeTabs env tabs).trace.length ≤ 1 ∧
    (isThrow (analyzeTabs env tabs).result = true ∨
     (∃ l, (analyzeTabs env tabs).result = .ok (fallbackR env.hostParse (some l))) ∨
     (∃ l c j, tabs = some l ∧ env.fetch = .respOk c ∧
        env.parseJson (cleanJsonContent c) = some j ∧
        (analyzeTabs env tabs).result =
          .ok (validateAndFormatResponse env.hostParse j l))) := by
  cases tabs with
  | none => exact ⟨by simp [analyzeTabs], Or.inr (Or.inl ⟨[], rfl⟩)⟩
  | some l =>
    by_cases hk : (getApiKey env.store).1.truthy = true
    · refine ⟨?_, ?_⟩
      · simp only [analyzeTabs, hk, Bool.not_true, Bool.false_eq_true, if_false]
        rcases env.fetch with _ | ⟨st, b⟩ | content
        · simp
        · simp
        · by_cases hco : content = ""
          · simp [hco]
          · simp only [hco, ite_false]
            cases env.parseJson (cleanJsonContent content) <;> simp
      · simp only [analyzeTabs, hk, Bool.not_true, Bool.false_eq_true, if_false]
        rcases hf : env.fetch with _ | ⟨st, b⟩ | content
        · exact Or.inr (Or.inl ⟨l, rfl⟩)
        · exact Or.inr (Or.inl ⟨l, rfl⟩)
        · by_cases hco : content = ""
          · simp only [hco, ite_true]
            exact Or.inr (Or.inl ⟨l, rfl⟩)
          · simp only [hco, ite_false]
            rcases hp : env.parseJson (cleanJsonContent content) with _ | j
            · exact Or.inr (Or.inl ⟨l, rfl⟩)
            · exact Or.inr (Or.inr ⟨l, content, j, rfl, rfl, hp, rfl⟩)
    · have hk' : (getApiKey env.store).1.truthy = false := by
        revert hk
        cases (getApiKey env.store).1.truthy <;> simp
      refine ⟨by simp [analyzeTabs, hk'], Or.inl (by simp [analyzeTabs, hk', isThrow])⟩

/-- The result shape claimed for `getApiKey`: null, or a string that starts
with `sk-` and has more than 20 characters. -/
def validKeyShape : JVal → Bool
  | .jnull => true
  | .jstr s => jsStartsWith s "sk-" && decide (s.length > 20)
  | _ => false

/-- C9 as stated is false: with the empty string (a falsy string value)
stored under `openai_api_key`, `getApiKey` returns that empty string itself —
neither null nor a valid `sk-` key — because the validation block only runs
for truthy string values. -/
theorem getApiKey_shape_counterexample :
    (getApiKey (saveSetting Store.empty "openai_api_key" (JVal.jstr ""))).1
        = JVal.jstr "" ∧
    validKeyShape
      (getApiKey (saveSetting Store.empty "openai_api_key" (JVal.jstr ""))).1 = false := by
  constructor
  · rfl
  · decide

/-- C9 amended: `getApiKey` returns a truthy stored string when it starts
with `sk-` and is longer than 20 characters; clears the key and returns null
when a truthy stored string fails that check; and returns any other stored
value (falsy values such as the empty string, and non-strings) unchanged,
null in particular when the key is absent. -/
theorem getApiKey_spec (st : Store) :
    (∀ s, getSetting st "openai_api_key" = JVal.jstr s → s ≠ "" →
      ((jsStartsWith s "sk-" && decide (s.length > 20)) = true →
        getApiKey st = (JVal.jstr s, st)) ∧
      ((jsStartsWith s "sk-" && decide (s.length > 20)) = false →
        (getApiKey st).1 = JVal.jnull ∧
        getSetting (getApiKey st).2 "openai_api_key" = JVal.jnull)) ∧
    (∀ v, getSetting st "openai_api_key" = v → JVal.truthy v = false →
      getApiKey st = (v, st)) ∧
    (∀ v, getSetting st "openai_api_key" = v → (∀ s, v ≠ JVal.jstr s) →
      getApiKey st = (v, st)) := by
  refine ⟨?_, ?_, ?_⟩
  · intro s hs hne
    constructor
    · intro hv
      simp [getApiKey, hs, hne, hv]
    · intro hv
      have he : getApiKey st = (JVal.jnull, removeSetting st "openai_api_key") := by
        simp only [getApiKey, hs]
        rw [if_pos (by simpa using hne), if_neg (by simp [hv])]
      rw [he]
      exact ⟨rfl, by simp [getSetting, removeSetting]⟩
  · intro v hv htr
    cases v with
    | jstr s =>
      have hs : s = "" := by
        by_contra hne
        simp [JVal.truthy, hne] at htr
      subst hs
      simp [getApiKey, hv]
    | jnull => simp [getApiKey, hv]
    | jbool b => simp [getApiKey, hv]
    | jnum n => simp [getApiKey, hv]
  · intro v hv hns
    cases v with
    | jstr s => exact absurd rfl (hns s)
    | jnull => simp [getApiKey, hv]
    | jbool b => simp [getApiKey, hv]
    | jnum n => simp [getApiKey, hv]

def c9Store : Store := saveSetting Store.empty "openai_api_key" (JVal.jstr "sk-short")

theorem getApiKey_spec_witness :
    (getSetting c9Store "openai_api_key" = JVal.jstr "sk-short" ∧
     ("sk-short" : String) ≠ "" ∧
     (jsStartsWith "sk-short" "sk-" && decide (("sk-short" : String).length > 20)) = false) ∧
    ((getApiKey c9Store).1 = JVal.jnull ∧
     getSetting (getApiKey c9Store).2 "openai_api_key" = JVal.jnull) :=
  ⟨⟨by decide, by decide, by decide⟩,
   ((getApiKey_spec c9Store).1 "sk-short" (by decide) (by decide)).2 (by decide)⟩

/-! ## TabGrouper: native tab-group synchronisation (claims C1, C7)

`TabGrouper.createTabGroups` and `TabGrouper.ungroupAllTabs`
(`storageService.ts` tab-grouper part, lines 239–381).  The observable
behaviour verified here is the sequence of browser tab-group API calls; the
in-memory `tabGroups` map and the storage persistence at the end of
`createTabGroups` have no bearing on the claims and are not traced.  Promise
rejections of individual API calls are oracles in the environment; each is
caught by the `try`/`catch` recorded in the source at that point. -/

/-- A browser tab as returned by `tabs.query` (`tab.id` may be undefined;
ungrouped tabs carry `groupId === -1`). -/
structure GTab where
  id : Option Int
  groupId : Int
  deriving DecidableEq, Repr

/-- A native tab group as returned by `tabGroups.query`. -/
structure GGroup where
  id : Int
  title : Option String
  deriving DecidableEq, Repr

/-- Host environment of one `createTabGroups` call.  The `Nat → Bool` oracles
say whether the i-th call of the corresponding API rejects; `groupIds i` is
the group id returned by the i-th `tabs.group`. -/
structure GEnv where
  supportsGroup : Bool     -- `browserAPI && browserAPI.tabs && browserAPI.tabs.group`
  hasTabGroupsAPI : Bool   -- `browserAPI.tabGroups` truthy
  hasQuery : Bool          -- `browserAPI.tabGroups.query` present
  hasUpdate : Bool         -- `browserAPI.tabGroups.update` present
  tabsQueryFails : Bool    -- the initial `tabs.query({currentWindow:true})` rejects
  queryFails : Bool        -- `tabGroups.query({})` rejects
  allTabs : List GTab      -- result of `tabs.query({currentWindow:true})`
  existingGroups : List GGroup  -- result of `tabGroups.query({})`
  ungroupFails : Nat → Bool
  groupFails : Nat → Bool
  groupIds : Nat → Int
  updateFails : Nat → Bool

/-- The browser tab-group API calls issued by the routine, in order. -/
inductive GEvent where
  | ungroupCall (tabIds : List Int)
  | groupCall (name : String) (tabIds : List Int)
  | updateCall (groupId : Int) (title : String) (color : String)
  deriving DecidableEq, Repr

def GEvent.isGroupCall : GEvent → Bool
  | .groupCall _ _ => true
  | _ => false

def GEvent.isUngroupCall : GEvent → Bool
  | .ungroupCall _ => true
  | _ => false

/-- `allTabs.filter(tab => tab.groupId === group.id).map(tab => tab.id)
.filter(id => id !== undefined)` (lines 356–357). -/
def groupTabIds (allTabs : List GTab) (gid : Int) : List Int :=
  ((allTabs.filter (fun t => t.groupId = gid)).map (fun t => t.id)).filterMap
    (fun o => o)

/-- `TabGrouper.getGroupColor` (lines 383–388). -/
def getGroupColor (name : String) : String :=
  ["blue", "red", "yellow", "green", "pink", "purple", "cyan", "grey"].getD
    (name.length % 8) ""

/-- The per-group loop of `ungroupAllTabs` (lines 353–371).  A rejection of
`tabs.ungroup` — `env.ungroupFails i` — is caught by the per-iteration
`try`/`catch` ("Continue with other groups even if one fails"): it affects
neither the call already issued nor the remaining iterations, so the trace
does not depend on that oracle. -/
def ungroupAux (env : GEnv) : Nat → List GGroup → List GEvent
  | _, [] => []
  | i, g :: rest =>
    (let ids := groupTabIds env.allTabs g.id
     if ids ≠ [] then [GEvent.ungroupCall ids] else []) ++ ungroupAux env (i + 1) rest

/-- `TabGrouper.ungroupAllTabs` (lines 331–381): skip silently when the
`tabGroups` API or its `query` is missing; when `tabGroups.query` rejects
the outer `catch` swallows the error ("Don't throw - we want to continue
with creating new groups even if ungrouping fails"); otherwise issue one
`tabs.ungroup` per existing group with a non-empty tab-id list. -/
def ungroupAllTabs (env : GEnv) : List GEvent :=
  if !env.hasTabGroupsAPI then []
  else if !env.hasQuery then []
  else if env.queryFails then []
  else ungroupAux env 0 env.existingGroups

/-- `tabs.map(tab => tab && tab.id).filter(id => id !== undefined && id !==
null && typeof id === 'number')` (lines 292–294): a null entry contributes
nothing; a tab object's `id` is a number and is kept. -/
def tabDataIds (ts : List (Option TabData)) : List Int :=
  ts.filterMap (fun ot => ot.map (fun t => t.id))

/-- The per-group creation loop of `createTabGroups` (lines 286–318), with
`i` the input position (used to index the call oracles).  An entry with a
falsy name is skipped (`continue`); an empty id list issues no call; a
rejection of `tabs.group` (`env.groupFails i`) or of `tabGroups.update`
(`env.updateFails i`, caught by the same per-group `try`/`catch`) does not
stop the remaining iterations. -/
def createAux (env : GEnv) : Nat → List (String × List (Option TabData)) → List GEvent
  | _, [] => []
  | i, (name, ts) :: rest =>
    (if name = "" then []
     else
       let ids := tabDataIds ts
       if ids = [] then []
       else
         GEvent.groupCall name ids ::
           (if env.groupFails i then []
            else if env.hasTabGroupsAPI && env.hasUpdate then
              [GEvent.updateCall (env.groupIds i) name (getGroupColor name)]
            else []))
      ++ createAux env (i + 1) rest

/-- `TabGrouper.createTabGroups` (lines 239–329): nothing browser-visible
happens unless `tabs.group` is supported; a rejection of the initial
`tabs.query` aborts the whole `try` block; otherwise the routine ungroups
first and only then creates the new groups. -/
def createTabGroups (env : GEnv)
    (groupedTabs : List (String × List (Option TabData))) : List GEvent :=
  if env.supportsGroup then
    if env.tabsQueryFails then []
    else ungroupAllTabs env ++ createAux env 0 groupedTabs
  else []

/-- The group-creation calls demanded by the input alone: one per entry with
a truthy name and a non-empty tab-id list, in input order.  Notably this list
depends on no part of the environment — no failure oracle can change it. -/
def expectedGroupCalls
    (groupedTabs : List (String × List (Option TabData))) : List GEvent :=
  groupedTabs.filterMap (fun p =>
    if p.1 = "" then none
    else if tabDataIds p.2 = [] then none
    else some (.groupCall p.1 (tabDataIds p.2)))

lemma ungroupAux_all_ungroup (env : GEnv) :
    ∀ (i : Nat) (gs : List GGroup) (e : GEvent), e ∈ ungroupAux env i gs →
      GEvent.isUngroupCall e = true
  | i, [], e => by simp [ungroupAux]
  | i, g :: rest, e => by
    intro he
    simp only [ungroupAux, List.mem_append] at he
    rcases he with he | he
    · by_cases hid : groupTabIds env.allTabs g.id = []
      · rw [if_neg (by simp [hid])] at he
        simp at he
      · rw [if_pos hid] at he
        simp only [List.mem_singleton] at he
        subst he
        rfl
    · exact ungroupAux_all_ungroup env (i + 1) rest e he

lemma createAux_no_ungroup (env : GEnv) :
    ∀ (i : Nat) (gts : List (String × List (Option TabData))) (e : GEvent),
      e ∈ createAux env i gts → GEvent.isUngroupCall e = false
  | i, [], e => by simp [createAux]
  | i, (name, ts) :: rest, e => by
    intro he
    simp only [createAux, List.mem_append] at he
    rcases he with he | he
    · by_cases hn : name = ""
      · simp [hn] at he
      · by_cases hid : tabDataIds ts = []
        · simp [hn, hid] at he
        · simp only [hn, hid, if_false, ite_false, List.mem_cons] at he
          rcases he with rfl | he
          · rfl
          · by_cases hf : env.groupFails i = true
            · simp [hf] at he
            · by_cases hu : (env.hasTabGroupsAPI && env.hasUpdate) = true
              · simp [hf, hu] at he
                subst he
                rfl
              · simp [hf, hu] at he
    · exact createAux_no_ungroup env (i + 1) rest e he

lemma createAux_filter_groupCalls (env : GEnv) :
    ∀ (i : Nat) (gts : List (String × List (Option TabData))),
      (createAux env i gts).filter GEvent.isGroupCall = expectedGroupCalls gts
  | i, [] => by simp [createAux, expectedGroupCalls]
  | i, (name, ts) :: rest => by
    have ih := createAux_filter_groupCalls env (i + 1) rest
    simp only [createAux, expectedGroupCalls, List.filterMap_cons, List.filter_append]
    by_cases hn : name = ""
    · simp [hn, ih, expectedGroupCalls]
    · simp only [hn, if_false, ite_false]
      by_cases hid : tabDataIds ts = []
      · simp [hid, ih, expectedGroupCalls]
      · simp only [hid, if_false, ite_false]
        by_cases hf : env.groupFails i
        · simp [hf, ih, expectedGroupCalls, GEvent.isGroupCall]
        · simp only [hf, if_false, ite_false]
          by_cases hu : env.hasTabGroupsAPI && env.hasUpdate
          · simp [hu, ih, expectedGroupCalls, GEvent.isGroupCall]
          · simp [hu, ih, expectedGroupCalls, GEvent.isGroupCall]

lemma ungroupAux_filter_groupCalls (env : GEnv) :
    ∀ (i : Nat) (gs : List GGroup),
      (ungroupAux env i gs).filter GEvent.isGroupCall = []
  | i, [] => by simp [ungroupAux]
  | i, g :: rest => by
    have ih := ungroupAux_filter_groupCalls env (i + 1) rest
    simp only [ungroupAux, List.filter_append, ih]
    by_cases hid : groupTabIds env.allTabs g.id ≠ [] <;>
      simp [hid, GEvent.isGroupCall]

lemma mem_groupTabIds (allTabs : List GTab) (t : GTab) (gid n : Int)
    (ht : t ∈ allTabs) (hg : t.groupId = gid) (hn : t.id = some n) :
    n ∈ groupTabIds allTabs gid := by
  simp only [groupTabIds, List.mem_filterMap, List.mem_map, List.mem_filter]
  exact ⟨some n, ⟨t, ⟨ht, by simp [hg]⟩, hn⟩, rfl⟩

lemma mem_ungroupAux (env : GEnv) :
    ∀ (i : Nat) (gs : List GGroup) (g : GGroup), g ∈ gs →
      groupTabIds env.allTabs g.id ≠ [] →
      GEvent.ungroupCall (groupTabIds env.allTabs g.id) ∈ ungroupAux env i gs
  | i, [], g => by simp
  | i, g0 :: rest, g => by
    intro hg hne
    rcases List.mem_cons.1 hg with rfl | hg'
    · simp only [ungroupAux, List.mem_append]
      exact Or.inl (by simp [hne])
    · simp only [ungroupAux, List.mem_append]
      exact Or.inr (mem_ungroupAux env (i + 1) rest g hg' hne)

/-- C7: in `createTabGroups` the groups are processed sequentially in input
order and every valid group is attempted — the set of `tabs.group` calls is a
function of the input alone, so neither a failed creation/titling of one
group, nor a failed ungroup of one existing group, nor the failure of the
whole ungrouping phase (`tabGroups.query` rejecting) removes any later call;
and every existing group with tabs still gets its `tabs.ungroup` call no
matter which ungroup calls reject. -/
theorem createTabGroups_failures_do_not_abort (env : GEnv)
    (groupedTabs : List (String × List (Option TabData)))
    (hsup : env.supportsGroup = true) (htq : env.tabsQueryFails = false) :
    (createTabGroups env groupedTabs).filter GEvent.isGroupCall =
      expectedGroupCalls groupedTabs ∧
    (env.hasTabGroupsAPI = true → env.hasQuery = true → env.queryFails = false →
      ∀ g ∈ env.existingGroups, groupTabIds env.allTabs g.id ≠ [] →
        GEvent.ungroupCall (groupTabIds env.allTabs g.id) ∈
          createTabGroups env groupedTabs) := by
  constructor
  · simp only [createTabGroups, hsup, htq, if_true, Bool.false_eq_true, if_false,
      List.filter_append, ungroupAllTabs]
    rw [createAux_filter_groupCalls env 0 groupedTabs]
    by_cases h1 : env.hasTabGroupsAPI
    · by_cases h2 : env.hasQuery
      · by_cases h3 : env.queryFails
        · simp [h1, h2, h3]
        · simp [h1, h2, h3, ungroupAux_filter_groupCalls env 0 env.existingGroups]
      · simp [h1, h2]
    · simp [h1]
  · intro h1 h2 h3 g hg hne
    simp only [createTabGroups, hsup, htq, if_true, Bool.false_eq_true, if_false,
      List.mem_append, ungroupAllTabs, h1, h2, h3, Bool.not_true, if_false]
    exact Or.inl (mem_ungroupAux env 0 env.existingGroups g hg hne)

/-- C1: `createTabGroups` is two-phase: its trace splits into a prefix of
`tabs.ungroup` calls followed by calls that are not ungroup calls, so no
group creation precedes any ungrouping; and when the `tabGroups` API and its
`query` are available and the query succeeds, every tab of every existing
group has its id passed to some `tabs.ungroup` call of the first phase. -/
theorem createTabGroups_two_phase (env : GEnv)
    (groupedTabs : List (String × List (Option TabData)))
    (hsup : env.supportsGroup = true) (htq : env.tabsQueryFails = false) :
    ∃ pre post,
      createTabGroups env groupedTabs = pre ++ post ∧
      (∀ e ∈ pre, GEvent.isUngroupCall e = true) ∧
      (∀ e ∈ post, GEvent.isUngroupCall e = false) ∧
      (env.hasTabGroupsAPI = true → env.hasQuery = true → env.queryFails = false →
        ∀ g ∈ env.existingGroups, ∀ t ∈ env.allTabs, t.groupId = g.id →
          ∀ n, t.id = some n →
            ∃ ids, GEvent.ungroupCall ids ∈ pre ∧ n ∈ ids) := by
  refine ⟨ungroupAllTabs env, createAux env 0 groupedTabs, ?_, ?_, ?_, ?_⟩
  · simp [createTabGroups, hsup, htq]
  · intro e he
    simp only [ungroupAllTabs] at he
    by_cases h1 : env.hasTabGroupsAPI
    · by_cases h2 : env.hasQuery
      · by_cases h3 : env.queryFails
        · simp [h1, h2, h3] at he
        · simp only [h1, h2, h3, Bool.not_true, Bool.false_eq_true, if_false] at he
          exact ungroupAux_all_ungroup env 0 env.existingGroups e he
      · simp [h1, h2] at he
    · simp [h1] at he
  · exact fun e he => createAux_no_ungroup env 0 groupedTabs e he
  · intro h1 h2 h3 g hg t ht hgid n hn
    have hmem : n ∈ groupTabIds env.allTabs g.id :=
      mem_groupTabIds env.allTabs t g.id n ht hgid hn
    have hne : groupTabIds env.allTabs g.id ≠ [] := by
      intro hnil
      rw [hnil] at hmem
      simp at hmem
    refine ⟨groupTabIds env.allTabs g.id, ?_, hmem⟩
    simp only [ungroupAllTabs, h1, h2, h3, Bool.not_true, Bool.false_eq_true, if_false]
    exact mem_ungroupAux env 0 env.existingGroups g hg hne

def gW : GEnv :=
  ⟨true, true, true, true, false, false,
   [⟨some 1, 5⟩, ⟨some 2, 5⟩, ⟨none, 5⟩, ⟨some 3, -1⟩],
   [⟨5, some "Old"⟩],
   fun _ => false, fun _ => false, fun _ => 100, fun _ => false⟩

def gtsW : List (String × List (Option TabData)) :=
  [("Dev", [some ⟨1, "t", "u"⟩, none]), ("", [some ⟨2, "a", "b"⟩]), ("Empty", [])]

theorem createTabGroups_failures_do_not_abort_witness :
    (gW.supportsGroup = true ∧ gW.tabsQueryFails = false) ∧
    ((createTabGroups gW gtsW).filter GEvent.isGroupCall = expectedGroupCalls gtsW ∧
     (gW.hasTabGroupsAPI = true → gW.hasQuery = true → gW.queryFails = false →
       ∀ g ∈ gW.existingGroups, groupTabIds gW.allTabs g.id ≠ [] →
         GEvent.ungroupCall (groupTabIds gW.allTabs g.id) ∈
           createTabGroups gW gtsW)) :=
  ⟨⟨rfl, rfl⟩, createTabGroups_failures_do_not_abort gW gtsW rfl rfl⟩

theorem createTabGroups_two_phase_witness :
    (gW.supportsGroup = true ∧ gW.tabsQueryFails = false) ∧
    (∃ pre post,
      createTabGroups gW gtsW = pre ++ post ∧
      (∀ e ∈ pre, GEvent.isUngroupCall e = true) ∧
      (∀ e ∈ post, GEvent.isUngroupCall e = false) ∧
      (gW.hasTabGroupsAPI = true → gW.hasQuery = true → gW.queryFails = false →
        ∀ g ∈ gW.existingGroups, ∀ t ∈ gW.allTabs, t.groupId = g.id →
          ∀ n, t.id = some n →
            ∃ ids, GEvent.ungroupCall ids ∈ pre ∧ n ∈ ids)) :=
  ⟨⟨rfl, rfl⟩, createTabGroups_two_phase gW gtsW rfl rfl⟩

end TabsAI
